import Mathlib

/-!
Verification of the wickdb core fragments: the log record writer
(src/record/writer.rs), the table cache (src/table_cache.rs) and the error
taxonomy (src/util/status.rs), shallowly embedded in Lean.

The writer's helpers (`crc32`, `encode_fixed_32`, `Slice`, the `record`
module constants and `RecordType`) and the table cache's collaborators
(the LRU cache, `Table`, `Storage`, `VarintU64`) are not part of the
given sources; where needed they are modelled from the specification and
marked `Modelled from the spec:` in their doc comments.
-/

namespace Wickdb

/-- From src/record (referenced by writer.rs). Block size of the log file. -/
def BLOCK_SIZE : Nat := 32768

/-- From src/record (referenced by writer.rs). Size of a record header. -/
def HEADER_SIZE : Nat := 7

/-- From src/record (referenced by writer.rs): record type tags 0..4. -/
inductive RecordType where
  | Zero
  | Full
  | First
  | Middle
  | Last
deriving DecidableEq

/-- The numeric tag of a record type (`rt as u8` in the source). -/
def RecordType.tag : RecordType → Nat
  | .Zero => 0
  | .Full => 1
  | .First => 2
  | .Middle => 3
  | .Last => 4

/-- One bit-reflected CRC-32C shift step (polynomial 0x82F63B78). -/
def crcStep (c : Nat) : Nat :=
  if c % 2 = 1 then (c / 2) ^^^ 0x82F63B78 else c / 2

/-- Process one input byte of CRC-32C state. -/
def crcByte (c b : Nat) : Nat :=
  crcStep (crcStep (crcStep (crcStep (crcStep (crcStep (crcStep (crcStep (c ^^^ (b % 256)))))))))

/-- Modelled from the spec: the CRC-32C helper `crc32::extend`
(src/util/crc32.rs is not among the given sources). Continues a CRC whose
current value is `init` over `data`; `extend (value a) b = value (a ++ b)`. -/
def crc32cExtend (init : Nat) (data : List Nat) : Nat :=
  (data.foldl crcByte (init ^^^ 0xFFFFFFFF)) ^^^ 0xFFFFFFFF

/-- Modelled from the spec: `crc32::value data` is the CRC-32C of `data`. -/
def crc32cValue (data : List Nat) : Nat :=
  crc32cExtend 0 data

/-- Modelled from the spec: `crc32::mask`, the masked form
`((c >> 15) | (c << 17)) + 0xa282ead8` in 32-bit arithmetic. -/
def crcMask (c : Nat) : Nat :=
  (((c / 2 ^ 15) ||| ((c * 2 ^ 17) % 2 ^ 32)) + 0xa282ead8) % 2 ^ 32

/-- Modelled from the spec: `encode_fixed_32` (src/util/coding.rs is not
among the given sources): little-endian fixed 32-bit encoding. -/
def encode_fixed_32 (v : Nat) : List Nat :=
  [v % 256, v / 2 ^ 8 % 256, v / 2 ^ 16 % 256, v / 2 ^ 24 % 256]

/-- The writer's `crc_cache` (Writer::new): for each record type the
unmasked CRC of the single tag byte. -/
def crcCache (t : RecordType) : Nat :=
  crc32cValue [t.tag]

/-- The bytes `Writer::write` emits for one record: the 7-byte header
(bytes 0..3 the little-endian masked CRC computed as
`mask (extend (crc_cache rt) data)`, bytes 4..5 `size & 0xff` and
`(size >> 8) as u8`, byte 6 the type tag) followed by the payload. -/
def recordBytes (t : RecordType) (data : List Nat) : List Nat :=
  encode_fixed_32 (crcMask (crc32cExtend (crcCache t) data)) ++
    [data.length % 256, data.length / 256 % 256, t.tag] ++ data

/-- What one loop iteration of `Writer::add_record` sends to the file:
either a run of zero padding bytes or one framed record. -/
inductive Emission where
  | pad : Nat → Emission
  | record : RecordType → List Nat → Emission
deriving DecidableEq

/-- The bytes an emission stands for in the file. -/
def Emission.render : Emission → List Nat
  | .pad n => List.replicate n 0
  | .record t d => recordBytes t d

/-- Concatenated bytes of a list of emissions. -/
def renderAll : List Emission → List Nat
  | [] => []
  | e :: es => e.render ++ renderAll es

/-- The zero padding `add_record` writes before a record when fewer than
`HEADER_SIZE` bytes (but more than zero) remain in the current block. -/
def padOf (off : Nat) : List Emission :=
  if BLOCK_SIZE - off < HEADER_SIZE ∧ BLOCK_SIZE - off ≠ 0 then
    [Emission.pad (BLOCK_SIZE - off)]
  else []

/-- The block offset after the padding check of `add_record`: reset to 0
when fewer than `HEADER_SIZE` bytes remain, unchanged otherwise. -/
def offAfterPad (off : Nat) : Nat :=
  if BLOCK_SIZE - off < HEADER_SIZE then 0 else off

/-- `to_write` in `add_record`: the payload size of the next fragment,
`left` if it fits in the remaining block space, else the space. -/
def fragLen (off1 len : Nat) : Nat :=
  if len < BLOCK_SIZE - off1 - HEADER_SIZE then len
  else BLOCK_SIZE - off1 - HEADER_SIZE

/-- The record type chosen in `add_record` from `begin` and `end`. -/
def recTypeOf (first isEnd : Bool) : RecordType :=
  if first && isEnd then .Full
  else if first then .First
  else if isEnd then .Last
  else .Middle

/-- The loop of `Writer::add_record` (`while left > 0`): at block offset
`off`, with `data` the unwritten suffix of the payload and `first` the
`begin` flag, returns the emissions of the remaining iterations and the
final block offset. -/
def addRecordAux (off : Nat) (data : List Nat) (first : Bool) :
    List Emission × Nat :=
  if data = [] then ([], off)
  else
    let rest := addRecordAux
      (offAfterPad off + HEADER_SIZE + fragLen (offAfterPad off) data.length)
      (data.drop (fragLen (offAfterPad off) data.length)) false
    (padOf off ++
      [Emission.record
        (recTypeOf first (fragLen (offAfterPad off) data.length == data.length))
        (data.take (fragLen (offAfterPad off) data.length))] ++ rest.1,
     rest.2)
termination_by (data.length, BLOCK_SIZE - off)
decreasing_by
  simp only [BLOCK_SIZE, HEADER_SIZE, offAfterPad, fragLen, List.length_drop]
  by_cases hp : (32768 : Nat) - off < 7
  · simp only [hp, if_true]
    have hd : data.length ≠ 0 := by
      simpa [List.length_eq_zero] using (by assumption : ¬ data = [])
    apply Prod.Lex.left
    split <;> omega
  · simp only [hp, if_false]
    by_cases hf : data.length < 32768 - off - 7
    · simp only [hf, if_true]
      have hd : data.length ≠ 0 := by
        simpa [List.length_eq_zero] using (by assumption : ¬ data = [])
      apply Prod.Lex.left
      omega
    · simp only [hf, if_false]
      by_cases hz : (32768 : Nat) - off - 7 = 0
      · have h0 : data.length - 0 = data.length := by omega
        rw [hz, h0]
        apply Prod.Lex.right
        omega
      · apply Prod.Lex.left
        omega

/-- `Writer::add_record`: append one payload starting from block offset
`off`; returns the emissions and the final block offset. -/
def addRecord (off : Nat) (data : List Nat) : List Emission × Nat :=
  addRecordAux off data true

/-- The record type tags of the records among a list of emissions
(padding carries no tag). -/
def typesOf : List Emission → List RecordType
  | [] => []
  | .record t _ :: es => t :: typesOf es
  | .pad _ :: es => typesOf es

/-- Total payload length of the records among a list of emissions. -/
def payloadSum : List Emission → Nat
  | [] => 0
  | .record _ d :: es => d.length + payloadSum es
  | .pad _ :: es => payloadSum es

/-- Recogniser for the tail `Middle* Last` of the fragment-type grammar. -/
def isMidStarLast : List RecordType → Bool
  | [.Last] => true
  | .Middle :: rest => isMidStarLast rest
  | _ => false

/-- Recogniser for the fragment-type grammar `Full | First Middle* Last`. -/
def fragTypesOk : List RecordType → Bool
  | [.Full] => true
  | .First :: rest => isMidStarLast rest
  | _ => false

/-- `Writer::add_record` with its `invarint!` assertions modelled: the
result is `none` exactly when an assertion fires.  Checked in source
order: `BLOCK_SIZE >= block_offset` at the top of each iteration;
`BLOCK_SIZE >= block_offset + HEADER_SIZE` after the padding step; and in
`Writer::write` that the fragment length fits two bytes
(`size <= 0xffff`) and `block_offset + HEADER_SIZE + size <= BLOCK_SIZE`. -/
def addRecordAuxChecked (off : Nat) (data : List Nat) (first : Bool) :
    Option (List Emission × Nat) :=
  if data = [] then some ([], off)
  else
    if BLOCK_SIZE ≥ off then
      if BLOCK_SIZE ≥ offAfterPad off + HEADER_SIZE then
        if (data.take (fragLen (offAfterPad off) data.length)).length ≤ 0xffff then
          if offAfterPad off + HEADER_SIZE +
              (data.take (fragLen (offAfterPad off) data.length)).length ≤ BLOCK_SIZE then
            match addRecordAuxChecked
                (offAfterPad off + HEADER_SIZE + fragLen (offAfterPad off) data.length)
                (data.drop (fragLen (offAfterPad off) data.length)) false with
            | none => none
            | some (ems, fin) =>
              some (padOf off ++
                [Emission.record
                  (recTypeOf first (fragLen (offAfterPad off) data.length == data.length))
                  (data.take (fragLen (offAfterPad off) data.length))] ++ ems, fin)
          else none
        else none
      else none
    else none
termination_by (data.length, BLOCK_SIZE - off)
decreasing_by
  simp only [BLOCK_SIZE, HEADER_SIZE, offAfterPad, fragLen, List.length_drop]
  by_cases hp : (32768 : Nat) - off < 7
  · simp only [hp, if_true]
    have hd : data.length ≠ 0 := by
      simpa [List.length_eq_zero] using (by assumption : ¬ data = [])
    apply Prod.Lex.left
    split <;> omega
  · simp only [hp, if_false]
    by_cases hf : data.length < 32768 - off - 7
    · simp only [hf, if_true]
      have hd : data.length ≠ 0 := by
        simpa [List.length_eq_zero] using (by assumption : ¬ data = [])
      apply Prod.Lex.left
      omega
    · simp only [hf, if_false]
      by_cases hz : (32768 : Nat) - off - 7 = 0
      · have h0 : data.length - 0 = data.length := by omega
        rw [hz, h0]
        apply Prod.Lex.right
        omega
      · apply Prod.Lex.left
        omega

/-- The `Writer` of src/record/writer.rs, with the destination `File`
modelled as the list of bytes written so far.  The `crc_cache` field is a
pure function of the record type (`crcCache`) and carries no state. -/
structure Writer where
  dest : List Nat
  block_offset : Nat

/-- `Writer::add_record` acting on a writer: appends the emitted bytes to
the destination and updates the block offset. -/
def Writer.add_record (w : Writer) (s : List Nat) : Writer :=
  ⟨w.dest ++ renderAll (addRecord w.block_offset s).1,
   (addRecord w.block_offset s).2⟩

/-! ### Error taxonomy (src/util/status.rs) -/

/-- `Status` from src/util/status.rs. -/
inductive Status where
  | NotFound
  | Corruption
  | NotSupported
  | InvalidArgument
  | CompressionError
  | IOError
deriving DecidableEq

/-- `Status::as_str`. -/
def Status.as_str : Status → String
  | .NotFound => "NotFoundError"
  | .Corruption => "CorruptionError"
  | .NotSupported => "NotSupportedError"
  | .InvalidArgument => "InvalidArgumentError"
  | .CompressionError => "CompressionError"
  | .IOError => "IOError"

/-- `WickErr` from src/util/status.rs.  `msg` is the optional static
message; `raw` models the optional boxed cause by its `description()`
string, the only part of it `Display` reads. -/
structure WickErr where
  t : Status
  msg : Option String
  raw : Option String
deriving DecidableEq

/-- The `Display` implementation for `WickErr`, one branch per
combination of present fields, as in the source `match`es. -/
def WickErr.display (e : WickErr) : String :=
  match e.msg with
  | some m =>
    match e.raw with
    | some r => "WickDB error [" ++ e.t.as_str ++ "] : " ++ m ++ " , raw : " ++ r
    | none => "WickDB error [" ++ e.t.as_str ++ "] : " ++ m
  | none =>
    match e.raw with
    | some r => "WickDB error [" ++ e.t.as_str ++ "] : " ++ r
    | none => "WickDB error [" ++ e.t.as_str ++ "]"

/-- The claim's reading of the kind name: the bare kind from
{NotFound, Corruption, NotSupported, InvalidArgument, CompressionError,
IOError}. -/
def claimedKindName : Status → String
  | .NotFound => "NotFound"
  | .Corruption => "Corruption"
  | .NotSupported => "NotSupported"
  | .InvalidArgument => "InvalidArgument"
  | .CompressionError => "CompressionError"
  | .IOError => "IOError"

/-- The rendering the claim describes: `WickDB error [<kind>] : <msg> ,
raw : <cause>`, the ` : <msg>` part omitted when the message is absent
and the ` , raw : <cause>` part omitted when the cause is absent. -/
def claimedDisplay (e : WickErr) : String :=
  "WickDB error [" ++ claimedKindName e.t ++ "]" ++
    (match e.msg with
     | some m => " : " ++ m
     | none => "") ++
    (match e.raw with
     | some r => " , raw : " ++ r
     | none => "")

/-- The amended rendering: the kind renders via `Status.as_str` (the kind
name with `Error` appended, except for `CompressionError` and `IOError`);
with a message present the suffix is ` : <msg>`, extended by
` , raw : <cause>` when a cause is also present; with only a cause
present the suffix is ` : <cause>`; otherwise there is no suffix. -/
def amendedDisplay (e : WickErr) : String :=
  "WickDB error [" ++ e.t.as_str ++ "]" ++
    match e.msg, e.raw with
    | some m, some r => " : " ++ m ++ " , raw : " ++ r
    | some m, none => " : " ++ m
    | none, some r => " : " ++ r
    | none, none => ""

/-! ### Table cache (src/table_cache.rs)

The cache (`SharedLRUCache`), `Table`, `Storage`, `VarintU64` and the
filename helper are not among the given sources; they are modelled from
the specification below.  Tables, files and read options are opaque and
represented by numbers; internal keys and parsed keys by byte lists. -/

/-- Modelled from the spec: `VarintU64::put_varint`, the variable-length
varint-64 encoding of the file number, 7 bits per byte, least-significant
group first, high bit set on every byte but the last. -/
def putVarint (n : Nat) : List Nat :=
  if n < 128 then [n] else (n % 128 + 128) :: putVarint (n / 128)
decreasing_by omega

/-- Modelled from the spec: one resident LRU cache entry: its key, its
value (a table), its pin count and its charge. -/
structure CacheEntry where
  key : List Nat
  value : Nat
  pins : Nat
  charge : Nat
deriving DecidableEq

/-- A pinned handle on a cache entry: the key it pins and the cached
value it grants access to (`HandleRef` / `get_value`). -/
structure Handle where
  key : List Nat
  value : Nat
deriving DecidableEq

/-- Modelled from the spec: the state of the bounded LRU cache.  The
entry list is kept in recency order, least recently used first. -/
structure CacheState where
  entries : List CacheEntry
  capacity : Nat
deriving DecidableEq

/-- Remove the entry with the given key from a list, returning the rest
and the entry when found. -/
def extractEntry : List CacheEntry → List Nat → List CacheEntry × Option CacheEntry
  | [], _ => ([], none)
  | e :: es, k =>
    if e.key = k then (es, some e)
    else ((extractEntry es k).1.cons e, (extractEntry es k).2)

/-- Modelled from the spec: `look_up` returns a pinned handle on a hit
and moves the entry to the most-recently-used position; on a miss it
returns none and leaves the cache unchanged. -/
def look_up (c : CacheState) (k : List Nat) : Option Handle × CacheState :=
  match extractEntry c.entries k with
  | (_, none) => (none, c)
  | (rest, some e) =>
    (some ⟨e.key, e.value⟩, ⟨rest ++ [⟨e.key, e.value, e.pins + 1, e.charge⟩], c.capacity⟩)

/-- Total charge of a list of entries. -/
def totalCharge (es : List CacheEntry) : Nat :=
  (es.map CacheEntry.charge).sum

/-- Remove the least-recently-used unpinned entry, when one exists. -/
def dropLruUnpinned : List CacheEntry → Option (List CacheEntry)
  | [] => none
  | e :: es =>
    if e.pins = 0 then some es
    else (dropLruUnpinned es).map (e :: ·)

/-- Evict least-recently-used unpinned entries until the total charge is
within the capacity or only pinned entries remain (`fuel` bounds the
number of evictions). -/
def evictLoop (fuel : Nat) (es : List CacheEntry) (cap : Nat) : List CacheEntry :=
  match fuel with
  | 0 => es
  | fuel + 1 =>
    if totalCharge es ≤ cap then es
    else
      match dropLruUnpinned es with
      | none => es
      | some es' => evictLoop fuel es' cap

/-- Modelled from the spec: `insert` adds a pinned entry (pin count 1) at
the most-recently-used position, evicts unpinned entries while over
capacity, and returns the handle. -/
def insert (c : CacheState) (k : List Nat) (v : Nat) (charge : Nat) :
    Handle × CacheState :=
  (⟨k, v⟩,
   ⟨evictLoop (c.entries.length + 1) (c.entries ++ [⟨k, v, 1, charge⟩]) c.capacity,
    c.capacity⟩)

/-- Modelled from the spec: `release` decrements the pin count of the
entry the handle pins.  (`erase` and deferred removal of erased entries
are not modelled; no claim depends on them.) -/
def release (c : CacheState) (h : Handle) : CacheState :=
  ⟨c.entries.map (fun e =>
      if e.key = h.key then ⟨e.key, e.value, e.pins - 1, e.charge⟩ else e),
   c.capacity⟩

/-- Pin count currently recorded for a key (0 when not resident). -/
def pinsOf (c : CacheState) (k : List Nat) : Nat :=
  match c.entries.find? (fun e => e.key == k) with
  | some e => e.pins
  | none => 0

/-- The external collaborators `TableCache` calls into, modelled from the
spec: `Storage::open` (by file number, the filename being a function of
it), `Table::open`, and `Table::internal_get` (taking the read options,
the table and the internal key). -/
structure TableEnv where
  openFile : Nat → Except WickErr Nat
  tableOpen : Nat → Nat → Except WickErr Nat
  internalGet : Nat → Nat → List Nat → Except WickErr (Option (List Nat))

/-- `TableCache::find_table`: look the varint-encoded file number up in
the cache; on a miss open the file, open the table, and insert it with
charge 1.  Returns the result and the cache state after the call. -/
def find_table (env : TableEnv) (c : CacheState) (file_number file_size : Nat) :
    Except WickErr Handle × CacheState :=
  match look_up c (putVarint file_number) with
  | (some h, c') => (.ok h, c')
  | (none, _) =>
    match env.openFile file_number with
    | .error e => (.error e, c)
    | .ok f =>
      match env.tableOpen f file_size with
      | .error e => (.error e, c)
      | .ok table =>
        ((Except.ok (insert c (putVarint file_number) table 1).1),
         (insert c (putVarint file_number) table 1).2)

/-- `TableCache::get`: call `find_table`, do the point lookup, release
the handle, return the parsed key.  The source propagates an
`internal_get` error with `?` before the `release` call; the embedding
keeps that order. -/
def get (env : TableEnv) (c : CacheState) (options : Nat) (key : List Nat)
    (file_number file_size : Nat) :
    Except WickErr (Option (List Nat)) × CacheState :=
  match find_table env c file_number file_size with
  | (.error e, c1) => (.error e, c1)
  | (.ok h, c1) =>
    match env.internalGet options h.value key with
    | .error e => (.error e, c1)
    | .ok parsed_key => (.ok parsed_key, release c1 h)

/-- A `TableEnv` whose file and table opens succeed but whose point
lookup always fails with a `Corruption` error. -/
def envGetErr : TableEnv :=
  ⟨fun _ => .ok 0, fun _ _ => .ok 0, fun _ _ _ => .error ⟨.Corruption, none, none⟩⟩

/-- A `TableEnv` whose `Storage::open` always fails with an `IOError`. -/
def envOpenFail : TableEnv :=
  ⟨fun _ => .error ⟨.IOError, none, none⟩,
   fun _ _ => .error ⟨.IOError, none, none⟩,
   fun _ _ _ => .ok none⟩

/-- A `TableEnv` whose opens succeed: file handle 3, table 9. -/
def envOpenOk : TableEnv :=
  ⟨fun _ => .ok 3, fun _ _ => .ok 9, fun _ _ _ => .ok none⟩

/-! ### Lemmas about the record writer -/

theorem addRecordAux_nil (off : Nat) (first : Bool) :
    addRecordAux off [] first = ([], off) := by
  rw [addRecordAux]
  simp

theorem addRecordAux_cons (off : Nat) (data : List Nat) (first : Bool) (hd : data ≠ []) :
    addRecordAux off data first =
      (padOf off ++
        [Emission.record (recTypeOf first (fragLen (offAfterPad off) data.length == data.length))
          (data.take (fragLen (offAfterPad off) data.length))] ++
        (addRecordAux (offAfterPad off + HEADER_SIZE + fragLen (offAfterPad off) data.length)
          (data.drop (fragLen (offAfterPad off) data.length)) false).1,
       (addRecordAux (offAfterPad off + HEADER_SIZE + fragLen (offAfterPad off) data.length)
          (data.drop (fragLen (offAfterPad off) data.length)) false).2) := by
  conv_lhs => rw [addRecordAux]
  simp [hd]

theorem renderAll_append (xs ys : List Emission) :
    renderAll (xs ++ ys) = renderAll xs ++ renderAll ys := by
  induction xs with
  | nil => simp [renderAll]
  | cons e es ih => simp [renderAll, ih]

theorem length_recordBytes (t : RecordType) (d : List Nat) :
    (recordBytes t d).length = HEADER_SIZE + d.length := by
  simp [recordBytes, encode_fixed_32, HEADER_SIZE]
  omega

theorem offAfterPad_le (off : Nat) :
    offAfterPad off ≤ BLOCK_SIZE - HEADER_SIZE := by
  simp only [offAfterPad, BLOCK_SIZE, HEADER_SIZE]
  split <;> omega

theorem fragLen_le_space (off1 len : Nat) :
    fragLen off1 len ≤ BLOCK_SIZE - off1 - HEADER_SIZE := by
  simp only [fragLen]
  split <;> omega

theorem fragLen_le_len (off1 len : Nat) : fragLen off1 len ≤ len := by
  simp only [fragLen]
  split <;> omega

theorem padOf_render_length (off : Nat) :
    (renderAll (padOf off)).length =
      if BLOCK_SIZE - off < HEADER_SIZE ∧ BLOCK_SIZE - off ≠ 0 then BLOCK_SIZE - off
      else 0 := by
  simp only [padOf]
  split <;> simp [renderAll, Emission.render]

/-- Offset invariant of the `add_record` loop: starting from a block
offset at most `BLOCK_SIZE`, the final block offset is at most
`BLOCK_SIZE` and congruent modulo `BLOCK_SIZE` to the starting offset
plus the number of bytes emitted. -/
theorem addRecordAux_offset (off : Nat) (data : List Nat) (first : Bool) :
    off ≤ BLOCK_SIZE →
      (addRecordAux off data first).2 ≤ BLOCK_SIZE ∧
      (addRecordAux off data first).2 % BLOCK_SIZE =
        (off + (renderAll (addRecordAux off data first).1).length) % BLOCK_SIZE := by
  induction off, data, first using addRecordAux.induct with
  | case1 off first =>
    intro h
    simp [addRecordAux_nil, renderAll, h]
  | case2 off data first hd ih =>
    intro h
    have hsp := fragLen_le_space (offAfterPad off) data.length
    have hlen := fragLen_le_len (offAfterPad off) data.length
    have hop := offAfterPad_le off
    have h2 : offAfterPad off + HEADER_SIZE + fragLen (offAfterPad off) data.length ≤
        BLOCK_SIZE := by
      simp only [BLOCK_SIZE, HEADER_SIZE] at hsp hop ⊢
      omega
    obtain ⟨ih1, ih2⟩ := ih h2
    rw [addRecordAux_cons off data first hd]
    refine ⟨ih1, ?_⟩
    rw [renderAll_append, renderAll_append]
    simp only [List.length_append, padOf_render_length, renderAll, Emission.render,
      length_recordBytes, List.length_take, List.length_nil, List.append_nil,
      Nat.min_eq_left hlen]
    by_cases hp : BLOCK_SIZE - off < HEADER_SIZE
    · by_cases hz : BLOCK_SIZE - off = 0
      · rw [if_neg (by simp [hz])]
        simp only [offAfterPad, if_pos hp] at ih2 ⊢
        simp only [BLOCK_SIZE, HEADER_SIZE] at *
        omega
      · rw [if_pos ⟨hp, hz⟩]
        simp only [offAfterPad, if_pos hp] at ih2 ⊢
        simp only [BLOCK_SIZE, HEADER_SIZE] at *
        omega
    · rw [if_neg (by simp [hp])]
      simp only [offAfterPad, if_neg hp] at ih2 ⊢
      simp only [BLOCK_SIZE, HEADER_SIZE] at *
      omega

theorem typesOf_append (xs ys : List Emission) :
    typesOf (xs ++ ys) = typesOf xs ++ typesOf ys := by
  induction xs with
  | nil => simp [typesOf]
  | cons e es ih => cases e <;> simp [typesOf, ih]

theorem payloadSum_append (xs ys : List Emission) :
    payloadSum (xs ++ ys) = payloadSum xs + payloadSum ys := by
  induction xs with
  | nil => simp [payloadSum]
  | cons e es ih =>
    cases e with
    | pad n => simp [payloadSum, ih]
    | record t d =>
      simp [payloadSum, ih]
      omega

theorem typesOf_padOf (off : Nat) : typesOf (padOf off) = [] := by
  simp only [padOf]
  split <;> simp [typesOf]

theorem payloadSum_padOf (off : Nat) : payloadSum (padOf off) = 0 := by
  simp only [padOf]
  split <;> simp [payloadSum]

/-- Fragment grammar invariant of the `add_record` loop: on a nonempty
remaining payload, the emitted record types match `Full | First Middle*
Last` when the `begin` flag is set and `Middle* Last` otherwise, and the
fragment payload lengths sum to the remaining payload length. -/
theorem addRecordAux_types (off : Nat) (data : List Nat) (first : Bool) :
    data ≠ [] →
      (if first then fragTypesOk (typesOf (addRecordAux off data first).1)
       else isMidStarLast (typesOf (addRecordAux off data first).1)) = true ∧
      payloadSum (addRecordAux off data first).1 = data.length := by
  induction off, data, first using addRecordAux.induct with
  | case1 off first =>
    intro hd
    exact absurd rfl hd
  | case2 off data first hd ih =>
    intro _
    have hlen := fragLen_le_len (offAfterPad off) data.length
    rw [addRecordAux_cons off data first hd]
    by_cases hend : fragLen (offAfterPad off) data.length = data.length
    · rw [hend]
      simp only [List.drop_length, List.take_length, addRecordAux_nil, beq_self_eq_true]
      constructor
      · cases first <;>
          simp [typesOf_append, typesOf_padOf, typesOf, recTypeOf, fragTypesOk, isMidStarLast]
      · simp [payloadSum_append, payloadSum_padOf, payloadSum]
    · have hlt : fragLen (offAfterPad off) data.length < data.length :=
        Nat.lt_of_le_of_ne hlen hend
      have hdropne : data.drop (fragLen (offAfterPad off) data.length) ≠ [] := by
        intro hcon
        have := congrArg List.length hcon
        simp at this
        omega
      obtain ⟨ih1, ih2⟩ := ih hdropne
      have hbeq : (fragLen (offAfterPad off) data.length == data.length) = false := by
        simp [hend]
      rw [hbeq]
      simp only [if_false, Bool.false_eq_true] at ih1
      constructor
      · cases first <;>
          simpa [typesOf_append, typesOf_padOf, typesOf, recTypeOf, fragTypesOk,
            isMidStarLast] using ih1
      · simp only [payloadSum_append, payloadSum_padOf, payloadSum, ih2,
          List.length_take, List.length_drop] at *
        omega

/-- Membership in `padOf` yields only padding emissions. -/
theorem mem_padOf (e : Emission) (off : Nat) :
    e ∈ padOf off → ∃ n, e = Emission.pad n := by
  simp only [padOf]
  split
  · intro hm
    simp at hm
    exact ⟨BLOCK_SIZE - off, hm⟩
  · intro hm
    simp at hm

/-- Every record fragment the `add_record` loop emits has payload length
at most `BLOCK_SIZE - HEADER_SIZE`. -/
theorem addRecordAux_record_len (off : Nat) (data : List Nat) (first : Bool)
    (t : RecordType) (p : List Nat) :
    Emission.record t p ∈ (addRecordAux off data first).1 →
      p.length ≤ BLOCK_SIZE - HEADER_SIZE := by
  induction off, data, first using addRecordAux.induct with
  | case1 off first =>
    simp [addRecordAux_nil]
  | case2 off data first hd ih =>
    rw [addRecordAux_cons off data first hd]
    intro hmem
    simp only [List.append_assoc, List.mem_append, List.mem_singleton] at hmem
    rcases hmem with hpad | hrec | hrest
    · obtain ⟨n, hn⟩ := mem_padOf _ _ hpad
      exact absurd hn (by simp)
    · have hp : p = data.take (fragLen (offAfterPad off) data.length) := by
        injection hrec with h1 h2
      have hsp := fragLen_le_space (offAfterPad off) data.length
      have hlen := fragLen_le_len (offAfterPad off) data.length
      subst hp
      simp only [List.length_take, BLOCK_SIZE, HEADER_SIZE] at *
      omega
    · exact ih hrest

/-- Extending the precomputed CRC of the tag byte over the payload gives
the CRC-32C of the tag byte followed by the payload. -/
theorem crc_extend_cache (t : RecordType) (p : List Nat) :
    crc32cExtend (crcCache t) p = crc32cValue (t.tag :: p) := by
  simp only [crcCache, crc32cValue, crc32cExtend, List.foldl_cons, List.foldl_nil]
  rw [Nat.xor_assoc, Nat.xor_self, Nat.xor_zero]

/-- From a block offset at most `BLOCK_SIZE`, no `invarint!` assertion of
the `add_record` loop or of `Writer::write` fires: the checked loop
returns the unchecked loop's result. -/
theorem addRecordAuxChecked_eq (off : Nat) (data : List Nat) (first : Bool) :
    off ≤ BLOCK_SIZE →
      addRecordAuxChecked off data first = some (addRecordAux off data first) := by
  induction off, data, first using addRecordAux.induct with
  | case1 off first =>
    intro h
    rw [addRecordAuxChecked, addRecordAux_nil]
    simp
  | case2 off data first hd ih =>
    intro h
    have hsp := fragLen_le_space (offAfterPad off) data.length
    have hlen := fragLen_le_len (offAfterPad off) data.length
    have hop := offAfterPad_le off
    have htake : (data.take (fragLen (offAfterPad off) data.length)).length =
        fragLen (offAfterPad off) data.length := by
      simp [List.length_take, Nat.min_eq_left hlen]
    have h2 : offAfterPad off + HEADER_SIZE + fragLen (offAfterPad off) data.length ≤
        BLOCK_SIZE := by
      simp only [BLOCK_SIZE, HEADER_SIZE] at hsp hop ⊢
      omega
    rw [addRecordAuxChecked]
    rw [if_neg hd, if_pos h, if_pos (by simp only [BLOCK_SIZE, HEADER_SIZE] at hop ⊢; omega)]
    rw [if_pos (by rw [htake]; simp only [BLOCK_SIZE, HEADER_SIZE] at hsp hop ⊢; omega)]
    rw [if_pos (by rw [htake]; exact h2)]
    rw [ih h2]
    rw [addRecordAux_cons off data first hd]

/-! ### Claim theorems for the record writer -/

/-- C1: the claim says an empty payload yields exactly one `Full` record
with a 7-byte header; the code's `while left > 0` loop never runs on an
empty payload, so `add_record` emits no record and writes no bytes at
all.  This evaluates the code at the failing input. -/
theorem addRecord_empty_payload_emits_nothing :
    (addRecord 0 []).1 = [] ∧ renderAll (addRecord 0 []).1 = [] ∧
      (addRecord 0 []).2 = 0 := by
  refine ⟨?_, ?_, ?_⟩ <;> simp [addRecord, addRecordAux_nil, renderAll]

/-- C3 counterexample: a record may end exactly at a block boundary, after
which the block offset equals `BLOCK_SIZE` itself, not a value in
`[0, 32768)`: appending one byte at block offset 32760 (reachable, e.g. a
writer on a file at position 32760) leaves the block offset at 32768. -/
theorem addRecord_block_offset_reaches_block_size :
    (addRecord 32760 [65]).2 = 32768 ∧
      ¬ ((addRecord 32760 [65]).2 < BLOCK_SIZE) := by
  have h : (addRecord 32760 [65]).2 = 32768 := by
    simp [addRecord, addRecordAux, offAfterPad, fragLen, padOf, recTypeOf,
      HEADER_SIZE, BLOCK_SIZE]
  refine ⟨h, ?_⟩
  rw [h]
  simp [BLOCK_SIZE]

/-- C3 (amended): from any reachable block offset (one at most
`BLOCK_SIZE`), after an append the block offset lies in `[0, 32768]` and
is congruent modulo 32768 to the starting offset plus the number of bytes
written to the file by the append. -/
theorem addRecord_block_offset_bound_and_congruence (off : Nat) (data : List Nat)
    (h : off ≤ BLOCK_SIZE) :
    (addRecord off data).2 ≤ BLOCK_SIZE ∧
    (addRecord off data).2 % BLOCK_SIZE =
      (off + (renderAll (addRecord off data).1).length) % BLOCK_SIZE :=
  addRecordAux_offset off data true h

/-- C3 witness: the amended block-offset bound and congruence at offset 0
with payload `[1]`. -/
theorem addRecord_block_offset_bound_and_congruence_witness :
    0 ≤ BLOCK_SIZE ∧
    ((addRecord 0 [1]).2 ≤ BLOCK_SIZE ∧
     (addRecord 0 [1]).2 % BLOCK_SIZE =
       (0 + (renderAll (addRecord 0 [1]).1).length) % BLOCK_SIZE) :=
  ⟨Nat.zero_le _, addRecord_block_offset_bound_and_congruence 0 [1] (Nat.zero_le _)⟩

/-- C4 counterexample: for the empty payload the writer emits no
fragments at all, and the empty type sequence matches neither `Full` nor
`First Middle* Last`. -/
theorem addRecord_empty_payload_breaks_grammar :
    typesOf (addRecord 0 []).1 = [] ∧
      fragTypesOk (typesOf (addRecord 0 []).1) = false := by
  constructor <;> simp [addRecord, addRecordAux_nil, typesOf, fragTypesOk]

/-- C4 (amended): for every nonempty payload the emitted record types
match `Full | First Middle* Last` and the fragment payload lengths sum to
the payload length (the empty payload emits no records). -/
theorem addRecord_fragment_grammar_and_sum (off : Nat) (data : List Nat)
    (hd : data ≠ []) :
    fragTypesOk (typesOf (addRecord off data).1) = true ∧
    payloadSum (addRecord off data).1 = data.length := by
  simpa using addRecordAux_types off data true hd

/-- C4 witness: the fragment grammar and length sum at offset 0 with
payload `[1]`. -/
theorem addRecord_fragment_grammar_and_sum_witness :
    ([1] : List Nat) ≠ [] ∧
    (fragTypesOk (typesOf (addRecord 0 [1]).1) = true ∧
     payloadSum (addRecord 0 [1]).1 = 1) :=
  ⟨by simp, addRecord_fragment_grammar_and_sum 0 [1] (by simp)⟩

/-- C5: every record the writer emits renders as a 7-byte header — bytes
0..3 the little-endian masked CRC-32C of the type tag byte followed by
the fragment payload, bytes 4..5 the little-endian payload length, byte 6
the type tag — followed immediately by the payload bytes. -/
theorem record_header_format (off : Nat) (data : List Nat) (t : RecordType)
    (p : List Nat) (hmem : Emission.record t p ∈ (addRecord off data).1) :
    Emission.render (Emission.record t p) =
      [crcMask (crc32cValue (t.tag :: p)) % 256,
       crcMask (crc32cValue (t.tag :: p)) / 2 ^ 8 % 256,
       crcMask (crc32cValue (t.tag :: p)) / 2 ^ 16 % 256,
       crcMask (crc32cValue (t.tag :: p)) / 2 ^ 24 % 256,
       p.length % 256, p.length / 256, t.tag] ++ p := by
  have hb := addRecordAux_record_len off data true t p hmem
  have hdiv : p.length / 256 % 256 = p.length / 256 := by
    apply Nat.mod_eq_of_lt
    simp only [BLOCK_SIZE, HEADER_SIZE] at hb
    omega
  simp [Emission.render, recordBytes, encode_fixed_32, crc_extend_cache, hdiv]

/-- C5 witness: the header format for the single `Full` record emitted
for payload `[7]` at offset 0. -/
theorem record_header_format_witness :
    Emission.record RecordType.Full [7] ∈ (addRecord 0 [7]).1 ∧
    Emission.render (Emission.record RecordType.Full [7]) =
      [crcMask (crc32cValue [RecordType.tag RecordType.Full, 7]) % 256,
       crcMask (crc32cValue [RecordType.tag RecordType.Full, 7]) / 2 ^ 8 % 256,
       crcMask (crc32cValue [RecordType.tag RecordType.Full, 7]) / 2 ^ 16 % 256,
       crcMask (crc32cValue [RecordType.tag RecordType.Full, 7]) / 2 ^ 24 % 256,
       (1 : Nat) % 256, (1 : Nat) / 256, RecordType.tag RecordType.Full] ++ [7] :=
  ⟨by simp [addRecord, addRecordAux, offAfterPad, fragLen, padOf, recTypeOf,
      HEADER_SIZE, BLOCK_SIZE],
   record_header_format 0 [7] RecordType.Full [7]
     (by simp [addRecord, addRecordAux, offAfterPad, fragLen, padOf, recTypeOf,
       HEADER_SIZE, BLOCK_SIZE])⟩

/-- C6 counterexample: an `add_record` call that begins with 1 byte left
in the block but an empty payload writes no zero bytes and does not reset
the block offset, because the loop body never runs. -/
theorem addRecord_no_padding_for_empty_payload :
    (addRecord 32767 []).1 = [] ∧ (addRecord 32767 []).2 = 32767 ∧
      ¬ ∃ rest, (addRecord 32767 []).1 = Emission.pad 1 :: rest := by
  refine ⟨by simp [addRecord, addRecordAux_nil],
    by simp [addRecord, addRecordAux_nil], ?_⟩
  rintro ⟨rest, hr⟩
  simp [addRecord, addRecordAux_nil] at hr

/-- C6 (amended): an `add_record` call with a nonempty payload that
begins with fewer than 7 bytes left in the block emits exactly
`BLOCK_SIZE - off` zero bytes first and then behaves exactly as a call at
block offset 0 (the offset is reset before the next header). -/
theorem addRecord_pads_short_block_tail (off : Nat) (data : List Nat)
    (h1 : 0 < BLOCK_SIZE - off) (h2 : BLOCK_SIZE - off < HEADER_SIZE)
    (hd : data ≠ []) :
    (addRecord off data).1 = Emission.pad (BLOCK_SIZE - off) :: (addRecord 0 data).1 ∧
    (addRecord off data).2 = (addRecord 0 data).2 ∧
    renderAll (addRecord off data).1 =
      List.replicate (BLOCK_SIZE - off) 0 ++ renderAll (addRecord 0 data).1 := by
  have hoff : offAfterPad off = 0 := by simp [offAfterPad, h2]
  have hoff0 : offAfterPad 0 = 0 := by simp [offAfterPad, BLOCK_SIZE, HEADER_SIZE]
  have hpad : padOf off = [Emission.pad (BLOCK_SIZE - off)] := by
    simp only [padOf]
    rw [if_pos ⟨h2, by omega⟩]
  have hpad0 : padOf 0 = [] := by simp [padOf, BLOCK_SIZE, HEADER_SIZE]
  unfold addRecord
  rw [addRecordAux_cons off data true hd, addRecordAux_cons 0 data true hd]
  rw [hoff, hoff0, hpad, hpad0]
  refine ⟨by simp, rfl, ?_⟩
  simp [renderAll_append, renderAll, Emission.render]

/-- C6 witness: the padding behaviour at block offset 32767 with payload
`[1]`. -/
theorem addRecord_pads_short_block_tail_witness :
    (0 < BLOCK_SIZE - 32767 ∧ BLOCK_SIZE - 32767 < HEADER_SIZE ∧
      ([1] : List Nat) ≠ []) ∧
    ((addRecord 32767 [1]).1 =
        Emission.pad (BLOCK_SIZE - 32767) :: (addRecord 0 [1]).1 ∧
     (addRecord 32767 [1]).2 = (addRecord 0 [1]).2 ∧
     renderAll (addRecord 32767 [1]).1 =
       List.replicate (BLOCK_SIZE - 32767) 0 ++ renderAll (addRecord 0 [1]).1) :=
  ⟨⟨by simp [BLOCK_SIZE], by simp [BLOCK_SIZE, HEADER_SIZE], by simp⟩,
   addRecord_pads_short_block_tail 32767 [1]
     (by simp [BLOCK_SIZE]) (by simp [BLOCK_SIZE, HEADER_SIZE]) (by simp)⟩

/-- C9: from any reachable writer state (block offset at most
`BLOCK_SIZE`), no `invarint!` assertion of `add_record` or of the
internal `write` fires: the assertion-checked loop returns the unchecked
result. -/
theorem addRecord_assertions_never_fire (off : Nat) (data : List Nat)
    (h : off ≤ BLOCK_SIZE) :
    addRecordAuxChecked off data true = some (addRecord off data) :=
  addRecordAuxChecked_eq off data true h

/-- C9 witness: the assertion-free run at offset 0 with payload `[1]`. -/
theorem addRecord_assertions_never_fire_witness :
    0 ≤ BLOCK_SIZE ∧
    addRecordAuxChecked 0 [1] true = some (addRecord 0 [1]) :=
  ⟨Nat.zero_le _, addRecord_assertions_never_fire 0 [1] (Nat.zero_le _)⟩

/-- C10: `add_record` is deterministic in its observable output: two
writers with equal block offsets, fed equal payloads, append the same
byte sequence to their files and end with equal block offsets. -/
theorem addRecord_deterministic_from_offset (w1 w2 : Writer) (data : List Nat)
    (h : w1.block_offset = w2.block_offset) :
    ∃ out, (w1.add_record data).dest = w1.dest ++ out ∧
      (w2.add_record data).dest = w2.dest ++ out ∧
      (w1.add_record data).block_offset = (w2.add_record data).block_offset := by
  refine ⟨renderAll (addRecord w1.block_offset data).1, rfl, ?_, ?_⟩ <;>
    simp [Writer.add_record, h]

/-- C10 witness: two writers with different file contents but equal block
offsets append identically. -/
theorem addRecord_deterministic_from_offset_witness :
    (Writer.mk [9] 5).block_offset = (Writer.mk [] 5).block_offset ∧
    ∃ out, ((Writer.mk [9] 5).add_record [1, 2]).dest = [9] ++ out ∧
      ((Writer.mk [] 5).add_record [1, 2]).dest = [] ++ out ∧
      ((Writer.mk [9] 5).add_record [1, 2]).block_offset =
        ((Writer.mk [] 5).add_record [1, 2]).block_offset :=
  ⟨rfl, addRecord_deterministic_from_offset ⟨[9], 5⟩ ⟨[], 5⟩ [1, 2] rfl⟩

/-! ### Lemmas and claim theorems for the table cache -/

/-- A `look_up` whose result is a miss leaves the cache unchanged. -/
theorem look_up_none (c : CacheState) (k : List Nat) :
    (look_up c k).1 = none → look_up c k = (none, c) := by
  unfold look_up
  rcases h : extractEntry c.entries k with ⟨rest, e?⟩
  cases e? <;> simp [h]

/-- C2: the claim says `get` releases the handle before returning even
when the point lookup errors; the source propagates the `internal_get`
error with `?` before the `release` call, so on that path the entry's pin
count stays 1.  This evaluates the code at the failing input: empty
cache, file 5 opens fine, `internal_get` returns `Corruption`. -/
theorem get_error_path_keeps_pin :
    (get envGetErr ⟨[], 10⟩ 0 [1] 5 100).1 =
      .error ⟨Status.Corruption, none, none⟩ ∧
    pinsOf (get envGetErr ⟨[], 10⟩ 0 [1] 5 100).2 (putVarint 5) = 1 := by
  constructor <;>
    simp [get, find_table, look_up, extractEntry, putVarint, envGetErr, insert,
      evictLoop, totalCharge, pinsOf]

/-- C7: on a cache miss, when the open of the file or of the table fails,
`find_table` surfaces that error and leaves the cache unchanged, and a
subsequent `find_table` for the same file number retries the open (here:
against an environment whose opens succeed, it returns the freshly
inserted handle). -/
theorem find_table_failure_leaves_cache_unchanged (env env2 : TableEnv)
    (c : CacheState) (fn fs tb : Nat) (f : Nat) (e : WickErr)
    (hmiss : (look_up c (putVarint fn)).1 = none)
    (hfail : env.openFile fn = .error e ∨
      ∃ ff, env.openFile fn = .ok ff ∧ env.tableOpen ff fs = .error e)
    (hopen2 : env2.openFile fn = .ok f) (htab2 : env2.tableOpen f fs = .ok tb) :
    (find_table env c fn fs).1 = .error e ∧
    (find_table env c fn fs).2 = c ∧
    (find_table env2 (find_table env c fn fs).2 fn fs).1 =
      .ok ⟨putVarint fn, tb⟩ := by
  have hm := look_up_none c (putVarint fn) hmiss
  have hretry : (find_table env2 c fn fs).1 = .ok ⟨putVarint fn, tb⟩ := by
    unfold find_table
    simp only [hm, hopen2, htab2, insert]
  have hmain : find_table env c fn fs = (.error e, c) := by
    unfold find_table
    rcases hfail with hopen | ⟨ff, hff, hft⟩
    · simp only [hm, hopen]
    · simp only [hm, hff, hft]
  rw [hmain]
  exact ⟨rfl, rfl, hretry⟩

/-- C7 witness: a failing open against an empty cache with capacity 2 for
file number 5, retried against an environment that opens file handle 3
and table 9. -/
theorem find_table_failure_leaves_cache_unchanged_witness :
    ((look_up ⟨[], 2⟩ (putVarint 5)).1 = none ∧
     (envOpenFail.openFile 5 = .error ⟨Status.IOError, none, none⟩ ∨
       ∃ ff, envOpenFail.openFile 5 = .ok ff ∧
         envOpenFail.tableOpen ff 100 = .error ⟨Status.IOError, none, none⟩) ∧
     envOpenOk.openFile 5 = .ok 3 ∧ envOpenOk.tableOpen 3 100 = .ok 9) ∧
    ((find_table envOpenFail ⟨[], 2⟩ 5 100).1 =
        .error ⟨Status.IOError, none, none⟩ ∧
     (find_table envOpenFail ⟨[], 2⟩ 5 100).2 = ⟨[], 2⟩ ∧
     (find_table envOpenOk (find_table envOpenFail ⟨[], 2⟩ 5 100).2 5 100).1 =
       .ok ⟨putVarint 5, 9⟩) :=
  ⟨⟨by simp [look_up, extractEntry], Or.inl rfl, rfl, rfl⟩,
   find_table_failure_leaves_cache_unchanged envOpenFail envOpenOk ⟨[], 2⟩ 5 100 9 3
     ⟨Status.IOError, none, none⟩ (by simp [look_up, extractEntry]) (Or.inl rfl)
     rfl rfl⟩

/-! ### Claim theorems for the error taxonomy -/

/-- Splitting the literal `"] : "` after the kind bracket. -/
theorem bracket_colon_split (X : String) :
    ("]" : String) ++ (" : " ++ X) = "] : " ++ X := by
  rw [← String.append_assoc]
  rfl

/-- C8 counterexample: with no message and a cause present, `Display`
renders `WickDB error [NotFoundError] : boom` — the kind carries the
`Error` suffix from `Status::as_str`, and the cause appears after ` : `
rather than after ` , raw : ` as the claim predicts. -/
theorem wickErr_display_diverges_from_claim :
    WickErr.display ⟨Status.NotFound, none, some "boom"⟩ =
      "WickDB error [NotFoundError] : boom" ∧
    WickErr.display ⟨Status.NotFound, none, some "boom"⟩ ≠
      claimedDisplay ⟨Status.NotFound, none, some "boom"⟩ ∧
    claimedDisplay ⟨Status.NotFound, none, some "boom"⟩ =
      "WickDB error [NotFound] , raw : boom" := by
  refine ⟨by decide, by decide, by decide⟩

/-- C8 (amended): `Display` renders `WickDB error [<kindstr>]` with
`<kindstr>` from `Status::as_str`; a present message appends ` : <msg>`,
and a cause additionally appends ` , raw : <cause>`; with no message but
a cause, the cause appends as ` : <cause>`. -/
theorem wickErr_display_format (e : WickErr) : e.display = amendedDisplay e := by
  obtain ⟨t, msg, raw⟩ := e
  cases msg <;> cases raw <;>
    simp [WickErr.display, amendedDisplay, String.append_assoc, bracket_colon_split,
      String.append_empty]

end Wickdb
